import Mathlib

/-!
# c-terminal: the command-execution engine of `src/main.c`

A shallow embedding of `log_commands`, `piped_execute` and `standard_execute`.

* The `commands` array is a list of entries, `none` standing for `NULL`.  A
  pointer `commands + k` is the list with its first `k` entries dropped.
  Reading past either end of the list has no defined result.
* System calls act on an explicit `World`: the descriptor table of the
  process, the log file, the error stream and counters for `fork` and `wait`.
  New descriptors are the lowest unused ones, as POSIX prescribes for `dup`,
  `open` and `pipe`.  What the operating system answers (whether a file opens,
  what `fork` returns, whether `execvp` replaces the image) is read from an
  `Env`, and so is the content of the uninitialised array `pipe_fds`.
* `exit`, a successful `execvp` and an undefined access stop the run: they are
  the `Halt` alternatives of `Except Halt World`.  A function that returns to
  its caller yields `Except.ok`.  The process followed is the one in which
  `fork` returns the value the environment gives: the parent for a non-zero
  value, the child for zero.
* The array `pid` of `piped_execute` is declared with `num_pipes` elements.
  The model keeps what is stored at each index, as the stack does, and records
  every access together with the declared length.
-/

namespace CTerminal

/-- One entry of the `commands` array: `none` is `NULL`, `some t` points to the string `t`. -/
abbrev Token := Option String

/-- The constant `MAX_COMMANDS` of `main.c`. -/
abbrev MAX_COMMANDS : Nat := 20

/-- Exit status `EXIT_SUCCESS`. -/
abbrev EXIT_SUCCESS : Nat := 0

/-- Exit status `EXIT_FAILURE`. -/
abbrev EXIT_FAILURE : Nat := 1

/-- Descriptor number of standard input. -/
abbrev STDIN_FILENO : Nat := 0

/-- Descriptor number of standard output. -/
abbrev STDOUT_FILENO : Nat := 1

/-! ## log_commands (lines 36-57) -/

/-- The loop of `log_commands`, lines 48-53.  The first argument is `end_index`, the list
is the memory from `commands[i]` onwards, `i` the loop counter and `acc` the text written
so far.  The loop stops at a `NULL` entry or when `end_index != i` fails; a token
different from `|` is printed with `"%s "`. -/
def logLoop (end_index : Int) : List Token → Nat → String → Option String
  | [], _, _ => none
  | none :: _, _, acc => some acc
  | some t :: rest, i, acc =>
    if end_index = (i : Int) then some acc
    else logLoop end_index rest (i + 1) (if t ≠ "|" then acc ++ t ++ " " else acc)

/-- The text that one call of `log_commands` writes, lines 46-54: the `PID` line, the
`Command: ` line and the closing `"\n\n"`. -/
def logText (pid : Int) (commands : List Token) (end_index : Int) : Option String :=
  (logLoop end_index commands 0 ("PID: " ++ toString pid ++ "\n" ++ "Command: ")).map
    (fun s => s ++ "\n\n")

/-! ## The scans over `commands` -/

/-- The pipe count of `standard_execute`, lines 230-236: the list is the memory from
`commands[i]` onwards and `n` is `num_pipes`. -/
def countPipes : List Token → Nat → Option Nat
  | [], _ => none
  | none :: _, n => some n
  | some t :: rest, n => countPipes rest (if t = "|" then n + 1 else n)

/-- The pipe count of `piped_execute`, lines 137-144: the list is the memory from
`commands[i]` onwards; the result is `(num_pipes, end_index)`. -/
def pipeScan : List Token → Nat → Nat → Int → Option (Nat × Int)
  | [], _, _, _ => none
  | none :: _, _, n, e => some (n, e)
  | some t :: rest, i, n, e =>
    if t = "|" then pipeScan rest (i + 1) (n + 1) (i : Int) else pipeScan rest (i + 1) n e

/-- The redirection scan of `standard_execute`, lines 244-256.  `done` holds the entries
`commands[0..i)` as the loop has left them, the second list is the memory from
`commands[i]` onwards; the last two arguments are `input_file` and `output_file`.  The
result is the array after the loop with the two captured paths. -/
def redirLoop : List Token → List Token → Token → Token → Option (List Token × Token × Token)
  | _, [], _, _ => none
  | done, none :: rest, inp, out => some (done ++ none :: rest, inp, out)
  | done, some t :: rest, inp, out =>
    if t = "<" then
      match rest with
      | [] => none
      | nxt :: _ => redirLoop (done ++ [none]) rest nxt out
    else if t = ">" then
      match rest with
      | [] => none
      | nxt :: _ => redirLoop (done ++ [none]) rest inp nxt
    else redirLoop (done ++ [some t]) rest inp out

/-- The redirection scan started as in `standard_execute`: `i = 0`, both paths `NULL`. -/
def redirScan (commands : List Token) : Option (List Token × Token × Token) :=
  redirLoop [] commands none none

/-- The argument vector a program receives: the strings of an array up to its first
`NULL` entry. -/
def argvOf : List Token → Option (List String)
  | [] => none
  | none :: _ => some []
  | some t :: rest => (argvOf rest).map (fun l => t :: l)

/-- The inner loop of `piped_execute`, lines 151-154: the list is the memory from
`commands[cmd_end]` onwards; the result is the final `cmd_end`. -/
def stageEnd : List Token → Nat → Option Nat
  | [], _ => none
  | none :: _, e => some e
  | some t :: rest, e => if t = "|" then some e else stageEnd rest (e + 1)

/-! ## The process state and the system calls -/

/-- A descriptor table: the open file behind each descriptor number, `none` when closed. -/
abbrev FdTable := Nat → Option Nat

/-- What the operating system answers to the process. -/
structure Env where
  /-- Number of descriptor slots of the process: descriptors are `0 .. nofile - 1`. -/
  nofile : Nat
  /-- The file `open(path, O_RDONLY)` reaches, `none` when it cannot be opened. -/
  openRead : String → Option Nat
  /-- The file `open(path, O_WRONLY | O_CREAT | O_TRUNC, ..)` reaches, `none` on failure. -/
  openWrite : String → Option Nat
  /-- The two ends of the pipe made in loop round `i`, `none` when `pipe` fails. -/
  pipeEnds : Nat → Option (Nat × Nat)
  /-- Return value of the `k`-th call of `fork` in this process. -/
  fork : Nat → Int
  /-- Whether `fopen(filename, "a")` succeeds. -/
  logOpen : Bool
  /-- Whether `execvp(file, argv)`, called with a file name, replaces the image
  (`false`: it returns `-1`). -/
  execvp : Token → List String → Bool
  /-- Value of `sigint_rec` at the `k`-th check of this process. -/
  sigint_rec : Nat → Bool
  /-- Value of `sigterm_rec` at the `k`-th check of this process. -/
  sigterm_rec : Nat → Bool
  /-- Contents of the uninitialised array `pipe_fds` on entry to `piped_execute`. -/
  pipe_fds : Nat → Int × Int

/-- The observable state of the running process. -/
structure World where
  /-- The descriptor table. -/
  fds : FdTable
  /-- Every table the process has had since the start, oldest first. -/
  seen : List FdTable
  /-- The records appended to the log file, one per `log_commands` call. -/
  log : List String
  /-- The `perror` reports. -/
  err : List String
  /-- Number of `fork` calls made. -/
  forked : Nat
  /-- Number of child processes created (`fork` returned a positive handle). -/
  children : Nat
  /-- Number of `wait` calls made. -/
  waits : Nat
  /-- The `execvp` calls made: file and argument vector. -/
  execs : List (Token × List String)
  /-- The accesses to the array `pid` of `piped_execute`: index and declared length. -/
  pidAccess : List (Nat × Nat)

/-- How a run ends other than by returning to the caller. -/
inductive Halt where
  /-- The process called `exit(status)`. -/
  | exited (status : Nat) (w : World)
  /-- The call `execvp` succeeded: the program image is replaced. -/
  | replaced (w : World)
  /-- An access outside an array. -/
  | undefined

/-- Report on the error stream. -/
def World.perror (w : World) (s : String) : World :=
  { w with err := w.err ++ [s] }

/-- Install a new descriptor table. -/
def World.setFds (w : World) (t : FdTable) : World :=
  { w with fds := t, seen := w.seen ++ [t] }

/-- Record an access `pid[i]` to an array declared with `n` elements. -/
def World.notePid (w : World) (i n : Nat) : World :=
  { w with pidAccess := w.pidAccess ++ [(i, n)] }

/-- The table `t` with descriptor `fd` set to `v`. -/
def putFd (t : FdTable) (fd : Nat) (v : Option Nat) : FdTable :=
  fun k => if k = fd then v else t k

/-- The open file behind a descriptor given as a C `int`. -/
def lookupFd (t : FdTable) (fd : Int) : Option Nat :=
  if fd < 0 then none else t fd.toNat

/-- The lowest-numbered unused descriptor among `0 .. n - 1`. -/
def lowestFree (n : Nat) (t : FdTable) : Option Nat :=
  (List.range n).find? (fun k => (t k).isNone)

/-- The call `dup(fd)`: the lowest unused descriptor becomes a copy, `-1` on failure. -/
def sys_dup (env : Env) (w : World) (fd : Int) : Int × World :=
  match lookupFd w.fds fd, lowestFree env.nofile w.fds with
  | some f, some k => ((k : Int), w.setFds (putFd w.fds k (some f)))
  | _, _ => (-1, w)

/-- The call `dup2(oldfd, newfd)`. -/
def sys_dup2 (env : Env) (w : World) (oldfd : Int) (newfd : Nat) : Int × World :=
  match lookupFd w.fds oldfd with
  | none => (-1, w)
  | some f =>
    if env.nofile ≤ newfd then (-1, w)
    else if oldfd = (newfd : Int) then ((newfd : Int), w)
    else ((newfd : Int), w.setFds (putFd w.fds newfd (some f)))

/-- The call `close(fd)`; its result is never used. -/
def sys_close (w : World) (fd : Int) : World :=
  match lookupFd w.fds fd with
  | none => w
  | some _ => w.setFds (putFd w.fds fd.toNat none)

/-- The call `open` on a file that the environment resolves to `file`. -/
def sys_open (env : Env) (w : World) (file : Option Nat) : Int × World :=
  match file, lowestFree env.nofile w.fds with
  | some f, some k => ((k : Int), w.setFds (putFd w.fds k (some f)))
  | _, _ => (-1, w)

/-- The call `pipe(pipe_fds[i])`: on success the read and the write descriptor. -/
def sys_pipe (env : Env) (w : World) (i : Nat) : Option (Int × Int) × World :=
  match env.pipeEnds i, lowestFree env.nofile w.fds with
  | some ends, some r =>
    match lowestFree env.nofile (putFd w.fds r (some ends.1)) with
    | some wr =>
      (some ((r : Int), (wr : Int)),
        w.setFds (putFd (putFd w.fds r (some ends.1)) wr (some ends.2)))
    | none => (none, w)
  | _, _ => (none, w)

/-- The call `fork()` as seen by the process that continues in this model. -/
def sys_fork (env : Env) (w : World) : Int × World :=
  (env.fork w.forked,
    { w with
      forked := w.forked + 1,
      children := if 0 < env.fork w.forked then w.children + 1 else w.children })

/-- The call `wait(NULL)`. -/
def sys_wait (w : World) : World :=
  { w with waits := w.waits + 1 }

/-- The function `log_commands`, lines 36-57. -/
def log_commands (env : Env) (w : World) (pid : Int) (commands : List Token)
    (end_index : Int) : Except Halt World :=
  if env.logOpen then
    match logText pid commands end_index with
    | some text => .ok { w with log := w.log ++ [text] }
    | none => .error .undefined
  else .error (.exited EXIT_FAILURE (w.perror "shell"))

/-! ## piped_execute (lines 129-222) -/

/-- The test `pid < 0` on line 201 names the array `pid`, not `pid[i]`: it compares the
address of the array with the null pointer and never holds. -/
def pid_lt_zero : Bool := false

/-- The locals of `piped_execute` that the two-round loop carries.  The array `pid` is
declared with `num_pipes` elements; the values stored are kept per index as the stack
keeps them, and each access is recorded with the declared length in `World.pidAccess`. -/
structure PipedState where
  /-- The process state. -/
  w : World
  /-- The local `cmd_start`. -/
  cmd_start : Nat
  /-- The array `pid`. -/
  pid : Nat → Int
  /-- The array `pipe_fds`. -/
  pipe_fds : Nat → Int × Int

/-- The child branch of `piped_execute`, lines 168-200, in loop round `i`.  The call
`execvp(cmd[0], cmd)` of line 194 is defined only when `cmd[0]` is not `NULL`: for an
empty stage the file name is a null pointer and the run stops as undefined. -/
def piped_child (env : Env) (w : World) (commands : List Token)
    (i num_pipes cmd_start cmd_end : Nat) (pipe_fds : Nat → Int × Int) : Halt :=
  if env.sigint_rec 0 || env.sigterm_rec 0 then .exited EXIT_SUCCESS w
  else
    let w1 :=
      if 0 < i then
        sys_close (sys_dup2 env (sys_close w (pipe_fds (i - 1)).2)
          (pipe_fds (i - 1)).1 STDIN_FILENO).2 (pipe_fds (i - 1)).1
      else w
    let w2 :=
      if i < num_pipes then
        sys_close (sys_dup2 env (sys_close w1 (pipe_fds i).1)
          (pipe_fds i).2 STDOUT_FILENO).2 (pipe_fds i).2
      else w1
    if env.sigint_rec 1 || env.sigterm_rec 1 then .exited EXIT_SUCCESS w2
    else if MAX_COMMANDS < cmd_end - cmd_start then .undefined
    else
      let cmd := (commands.drop cmd_start).take (cmd_end - cmd_start) ++ [none]
      match cmd.head?.join, argvOf cmd with
      | some file, some argv =>
        let w3 := { w2 with execs := w2.execs ++ [(some file, argv)] }
        if env.execvp (some file) argv then .replaced w3
        else .exited EXIT_FAILURE (w3.perror "piped_execute")
      | _, _ => .undefined

/-- One round of the loop of `piped_execute`, lines 148-208. -/
def piped_stage (env : Env) (commands : List Token) (num_pipes : Nat) (s : PipedState)
    (i : Nat) : Except Halt PipedState :=
  match stageEnd (commands.drop s.cmd_start) s.cmd_start with
  | none => .error .undefined
  | some cmd_end =>
    let made : Except Halt (World × (Nat → Int × Int)) :=
      if i < num_pipes then
        match sys_pipe env s.w i with
        | (some p, w1) => .ok (w1, fun k => if k = i then p else s.pipe_fds k)
        | (none, w1) => .error (.exited EXIT_FAILURE (w1.perror "pipe"))
      else .ok (s.w, s.pipe_fds)
    match made with
    | .error h => .error h
    | .ok (w1, pipe_fds) =>
      let r := sys_fork env w1
      let pid : Nat → Int := fun k => if k = i then r.1 else s.pid k
      let w2 := (r.2.notePid i num_pipes).notePid i num_pipes
      if pid i = 0 then
        .error (piped_child env w2 commands i num_pipes s.cmd_start cmd_end pipe_fds)
      else if pid_lt_zero then .error (.exited EXIT_FAILURE (w2.perror "fork"))
      else .ok ⟨w2, cmd_end + 1, pid, pipe_fds⟩

/-- The parent loop of lines 211-215: both ends of `pipe_fds[i]` are closed for every
`i < num_pipes`. -/
def closePipes (w : World) (pipe_fds : Nat → Int × Int) (num_pipes : Nat) : World :=
  (List.range num_pipes).foldl
    (fun v i => sys_close (sys_close v (pipe_fds i).1) (pipe_fds i).2) w

/-- The function `piped_execute`, lines 129-222. -/
def piped_execute (env : Env) (w : World) (commands : List Token) : Except Halt World :=
  match pipeScan commands 0 0 (-1) with
  | none => .error .undefined
  | some (num_pipes, end_index) =>
    match [0, 1].foldlM (piped_stage env commands num_pipes)
        (PipedState.mk w 0 (fun _ => 0) env.pipe_fds) with
    | .error h => .error h
    | .ok s =>
      if MAX_COMMANDS < num_pipes then .error .undefined
      else
        let w1 := closePipes s.w s.pipe_fds num_pipes
        match log_commands env (w1.notePid 0 num_pipes) (s.pid 0) commands end_index with
        | .error h => .error h
        | .ok w2 =>
          if end_index < 0 then .error .undefined
          else
            match log_commands env (w2.notePid 1 num_pipes) (s.pid 1)
                (commands.drop end_index.toNat) (MAX_COMMANDS - 1 : Nat) with
            | .error h => .error h
            | .ok w3 => .ok { w3 with waits := w3.waits + (num_pipes + 1) }

/-! ## standard_execute (lines 224-351) -/

/-- The child branch of `standard_execute`, lines 302-313.  The call
`execvp(commands[0], commands)` of line 307 is defined only when `commands[0]` is not
`NULL`: on an empty line, or a line that begins with a redirection operator, the file
name is a null pointer and the run stops as undefined. -/
def standard_child (env : Env) (w : World) (commands : List Token) : Halt :=
  if env.sigint_rec 0 || env.sigterm_rec 0 then .exited EXIT_SUCCESS w
  else
    match commands.head?.join, argvOf commands with
    | some file, some argv =>
      let w1 := { w with execs := w.execs ++ [(some file, argv)] }
      if env.execvp (some file) argv then .replaced w1
      else .exited EXIT_FAILURE (w1.perror "shell")
    | _, _ => .undefined

/-- Lines 262-294 for one direction: when a path was captured, open it and put it on
descriptor `target`. -/
def redirect (env : Env) (w : World) (file : Token) (resolve : String → Option Nat)
    (target : Nat) : Except Halt World :=
  match file with
  | none => .ok w
  | some path =>
    let o := sys_open env w (resolve path)
    if o.1 = -1 then .error (.exited EXIT_FAILURE (o.2.perror "open"))
    else
      let d := sys_dup2 env o.2 o.1 target
      if d.1 = -1 then .error (.exited EXIT_FAILURE (d.2.perror "dup2"))
      else .ok (sys_close d.2 o.1)

/-- Lines 297-328: the dispatch on `num_pipes`. -/
def dispatch (env : Env) (w : World) (commands : List Token) (num_pipes : Nat) :
    Except Halt World :=
  if num_pipes = 0 then
    let r := sys_fork env w
    if r.1 = 0 then .error (standard_child env r.2 commands)
    else if r.1 < 0 then .ok (r.2.perror "fork")
    else log_commands env (sys_wait r.2) r.1 commands (MAX_COMMANDS - 1 : Nat)
  else piped_execute env w commands

/-- Lines 330-347 for one direction: when a path was captured, put the saved descriptor
back on `target`. -/
def restore (env : Env) (w : World) (file : Token) (saved : Int) (target : Nat) :
    Except Halt World :=
  match file with
  | none => .ok w
  | some _ =>
    let d := sys_dup2 env w saved target
    if d.1 = -1 then .error (.exited EXIT_FAILURE (d.2.perror "dup2")) else .ok d.2

/-- The function `standard_execute`, lines 224-351. -/
def standard_execute (env : Env) (w : World) (commands : List Token) : Except Halt World :=
  match countPipes commands 0 with
  | none => .error .undefined
  | some num_pipes =>
    match redirScan commands with
    | none => .error .undefined
    | some (commands1, input_file, output_file) =>
      let orig_stdin := sys_dup env w STDIN_FILENO
      let orig_stdout := sys_dup env orig_stdin.2 STDOUT_FILENO
      match redirect env orig_stdout.2 input_file env.openRead STDIN_FILENO with
      | .error h => .error h
      | .ok w1 =>
        match redirect env w1 output_file env.openWrite STDOUT_FILENO with
        | .error h => .error h
        | .ok w2 =>
          match dispatch env w2 commands1 num_pipes with
          | .error h => .error h
          | .ok w3 =>
            match restore env w3 input_file orig_stdin.1 STDIN_FILENO with
            | .error h => .error h
            | .ok w4 =>
              match restore env w4 output_file orig_stdout.1 STDOUT_FILENO with
              | .error h => .error h
              | .ok w5 => .ok (sys_close (sys_close w5 orig_stdin.1) orig_stdout.1)


/-! ## Specification-side definitions -/

/-- Each string followed by one space. -/
def spaceJoined : List String → String
  | [] => ""
  | t :: ts => t ++ " " ++ spaceJoined ts

/-- A log record as the specification describes it: the `PID` line, the `Command: ` line
holding the given tokens except `|`, each followed by one space, and one empty line. -/
def recordText (p : Int) (toks : List String) : String :=
  "PID: " ++ toString p ++ "\n" ++ "Command: " ++
    spaceJoined (toks.filter (fun t => t ≠ "|")) ++ "\n\n"

/-- The tokens of a line that `log_commands` keeps before the boundary `e`: those at an
index below `e` when `e` is not negative, all of them when it is. -/
def beforeBoundary (e : Int) (toks : List String) : List String :=
  if e < 0 then toks else toks.take e.toNat

/-- What the redirection scan leaves at the place of a token: the absent marker for `<`
and `>`, the token itself otherwise. -/
def strike (t : String) : Token :=
  if t = "<" ∨ t = ">" then none else some t

/-- The path captured for operator `op` over a token sequence followed by the sentinel:
each occurrence of `op` replaces the capture by the entry that follows it. -/
def capture (op : String) : List String → Token → Token
  | [], cur => cur
  | t :: ts, cur => capture op ts (if t = op then ts.head? else cur)

/-! ## Concrete runs -/

/-- An environment in which every call succeeds: sixteen descriptor slots, children
numbered from 101, no signal received. -/
def calmEnv : Env where
  nofile := 16
  openRead := fun _ => some 50
  openWrite := fun _ => some 60
  pipeEnds := fun i => some (70 + 2 * i, 71 + 2 * i)
  fork := fun k => 101 + (k : Int)
  logOpen := true
  execvp := fun _ _ => true
  sigint_rec := fun _ => false
  sigterm_rec := fun _ => false
  pipe_fds := fun _ => (0, 0)

/-- A fresh session: descriptors 0, 1 and 2 on the terminal (file 1), nothing logged. -/
def freshWorld : World where
  fds := fun k => if k < 3 then some 1 else none
  seen := []
  log := []
  err := []
  forked := 0
  children := 0
  waits := 0
  execs := []
  pidAccess := []

/-- The world a run returns with, `none` when it does not return. -/
def returned (r : Except Halt World) : Option World :=
  match r with
  | .ok w => some w
  | .error _ => none

/-- The status a run exits with, `none` when it does not call `exit`. -/
def exitStatus (r : Except Halt World) : Option Nat :=
  match r with
  | .error (.exited s _) => some s
  | _ => none

/-- The input line `a | b | c` in the array. -/
def threeStages : List Token :=
  [some "a", some "|", some "b", some "|", some "c", none]

/-- The input line `a | b` in the array. -/
def twoStages : List Token :=
  [some "a", some "|", some "b", none]

/-- A line of `MAX_COMMANDS` tokens, none of them an operator. -/
def twentyTokens : List String :=
  ["t1", "t2", "t3", "t4", "t5", "t6", "t7", "t8", "t9", "t10",
   "t11", "t12", "t13", "t14", "t15", "t16", "t17", "t18", "t19", "t20"]

/-- As `calmEnv`, but the first `fork` fails with `-1`. -/
def firstForkFails : Env :=
  { calmEnv with fork := fun k => if k = 0 then -1 else 102 }

/-- As `calmEnv`, but no file can be opened for reading. -/
def unreadable : Env :=
  { calmEnv with openRead := fun _ => none }

/-- The input line `cat < missing` in the array. -/
def catMissing : List Token :=
  [some "cat", some "<", some "missing", none]

/-- The token `p` is the redirection target of operator `op` in the line `toks`: it
follows the last occurrence of `op`. -/
def IsTarget (op : String) (toks : List String) (p : String) : Prop :=
  ∃ i : Nat, toks[i]? = some op ∧ (∀ j : Nat, i < j → toks[j]? ≠ some op) ∧
    toks[i + 1]? = some p

/-- The two worlds agree on everything but the descriptor table and its history. -/
def SameLedger (w v : World) : Prop :=
  v.log = w.log ∧ v.err = w.err ∧ v.forked = w.forked ∧ v.children = w.children ∧
    v.waits = w.waits ∧ v.execs = w.execs ∧ v.pidAccess = w.pidAccess

/-- A session whose standard output is closed: descriptors 0 and 2 on the terminal. -/
def stdoutClosed : World :=
  { freshWorld with fds := fun k => if k = 0 ∨ k = 2 then some 1 else none }

/-- The input line `cat < in > out` in the array. -/
def catInOut : List Token :=
  [some "cat", some "<", some "in", some ">", some "out", none]

/-- From `w` to `v` the descriptors in `P` are kept: each refers in `v`, and in every
table the process has had in between, to the file it refers to in `w`. -/
def KeepsOn (P : Nat → Prop) (w v : World) : Prop :=
  (∀ fd, P fd → v.fds fd = w.fds fd) ∧
    ∃ l, v.seen = w.seen ++ l ∧ ∀ t ∈ l, ∀ fd, P fd → t fd = w.fds fd

/-- The C descriptor value `x` is none of the descriptors in `P`. -/
def Fresh (P : Nat → Prop) (x : Int) : Prop :=
  x < 0 ∨ ¬ P x.toNat

/-- The input line `a | b | c | d` in the array. -/
def fourStages : List Token :=
  [some "a", some "|", some "b", some "|", some "c", some "|", some "d", none]

/-- The input line `cat file.txt | wc -l` in the array. -/
def catWc : List Token :=
  [some "cat", some "file.txt", some "|", some "wc", some "-l", none]

/-- The input line `echo hi > out.txt` in the array. -/
def echoOut : List Token :=
  [some "echo", some "hi", some ">", some "out.txt", none]

/-- The world a run ends in, however it ends; `none` for an undefined run. -/
def finalWorld (r : Except Halt World) : Option World :=
  match r with
  | .ok w => some w
  | .error (.exited _ w) => some w
  | .error (.replaced w) => some w
  | .error .undefined => none

/-- Whether a run stops as undefined. -/
def isUndefined (r : Except Halt World) : Bool :=
  match r with
  | .error .undefined => true
  | _ => false

/-- As `calmEnv`, seen from the first child: the first `fork` returns 0. -/
def firstChild : Env :=
  { calmEnv with fork := fun k => if k = 0 then 0 else 101 + (k : Int) }

/-- As `calmEnv`, seen from the second child: the second `fork` returns 0. -/
def secondChild : Env :=
  { calmEnv with fork := fun k => if k = 1 then 0 else 101 + (k : Int) }

/-- The empty input line in the array. -/
def emptyLine : List Token :=
  [none]

/-- The input line `a |` in the array. -/
def trailingPipe : List Token :=
  [some "a", some "|", none]

theorem logLoop_eq (e : Int) (rest : List Token) (toks : List String) :
    ∀ (i : Nat) (acc : String),
      logLoop e (toks.map some ++ none :: rest) i acc =
        some (acc ++ spaceJoined
          ((if e < (i : Int) then toks else toks.take (e - i).toNat).filter
            (fun t => t ≠ "|"))) := by
  induction toks with
  | nil => intro i acc; simp [logLoop, spaceJoined]
  | cons t ts ih =>
    intro i acc
    rw [List.map_cons, List.cons_append, logLoop]
    by_cases hei : e = (i : Int)
    · subst hei; simp [spaceJoined]
    · rw [if_neg hei, ih]
      by_cases hlt : e < (i : Int)
      · have h2 : e < ((i + 1 : Nat) : Int) := by push_cast; omega
        rw [if_pos hlt, if_pos h2]
        by_cases hp : t = "|"
        · simp [hp]
        · simp [hp, spaceJoined, String.append_assoc]
      · have h2 : ¬ e < ((i + 1 : Nat) : Int) := by push_cast; omega
        have h3 : (e - (i : Int)).toNat = (e - ((i + 1 : Nat) : Int)).toNat + 1 := by
          push_cast; omega
        rw [if_neg hlt, if_neg h2, h3, List.take_succ_cons]
        by_cases hp : t = "|"
        · simp [hp]
        · simp [hp, spaceJoined, String.append_assoc]

theorem logText_eq (p : Int) (toks : List String) (rest : List Token) (e : Int) :
    logText p (toks.map some ++ none :: rest) e = some (recordText p (beforeBoundary e toks)) := by
  simp [logText, logLoop_eq, recordText, beforeBoundary, String.append_assoc]

/-- C3 (as amended): for every process id, token sequence and boundary index the text
that `log_commands` writes is the line `PID: <p>`, the line `Command: ` followed by every
token before the first absent marker that differs from `|` and, when the boundary is not
negative, lies at an index below it, each followed by one space, and one empty line.  A
negative boundary cuts nothing off.  Once the log file is open, the call appends that text
to the log, changes nothing else and returns. -/
theorem log_commands_text (env : Env) (w : World) (p : Int) (toks : List String)
    (rest : List Token) (e : Int) :
    logText p (toks.map some ++ none :: rest) e =
        some (recordText p (beforeBoundary e toks)) ∧
      log_commands { env with logOpen := true } w p (toks.map some ++ none :: rest) e =
        .ok { w with log := w.log ++ [recordText p (beforeBoundary e toks)] } :=
  ⟨logText_eq p toks rest e, by simp [log_commands, logText_eq]⟩

/-- C3 (counterexample): with boundary `-1` no index lies below the boundary, yet the
record for the one-token line `a` holds the token. -/
theorem log_commands_negative_boundary :
    logText 7 [some "a", none] (-1) = some "PID: 7\nCommand: a \n\n" ∧
      logText 7 [some "a", none] (-1) ≠
        some (recordText 7 (["a"].take (Int.toNat (-1)))) := by
  decide


theorem redirLoop_cons (done l : List Token) (t : String) (nxt inp out : Token) :
    redirLoop done (some t :: nxt :: l) inp out =
      if t = "<" then redirLoop (done ++ [none]) (nxt :: l) nxt out
      else if t = ">" then redirLoop (done ++ [none]) (nxt :: l) inp nxt
      else redirLoop (done ++ [some t]) (nxt :: l) inp out := by
  simp only [redirLoop]

theorem redirLoop_eq (rest : List Token) (toks : List String) :
    ∀ (done : List Token) (inp out : Token),
      redirLoop done (toks.map some ++ none :: rest) inp out =
        some (done ++ (toks.map strike ++ none :: rest),
          capture "<" toks inp, capture ">" toks out) := by
  induction toks with
  | nil => intro done inp out; simp [redirLoop, capture]
  | cons t ts ih =>
    intro done inp out
    obtain ⟨nxt, l, hl, hn⟩ :
        ∃ nxt l, ts.map some ++ none :: rest = nxt :: l ∧ nxt = ts.head? := by
      cases ts <;> simp
    rw [List.map_cons, List.cons_append, hl, redirLoop_cons, ← hl]
    by_cases h1 : t = "<"
    · subst h1
      rw [if_pos rfl, ih]
      simp [strike, capture, hn]
    · rw [if_neg h1]
      by_cases h2 : t = ">"
      · subst h2
        rw [if_pos rfl, ih]
        simp [strike, capture, hn]
      · rw [if_neg h2, ih]
        simp [strike, capture, h1, h2]

theorem capture_absent (op : String) (toks : List String) :
    ∀ cur : Token, (∀ i : Nat, toks[i]? ≠ some op) → capture op toks cur = cur := by
  induction toks with
  | nil => intro cur _; rfl
  | cons t ts ih =>
    intro cur h
    have h0 : t ≠ op := by simpa using h 0
    rw [capture, if_neg h0]
    exact ih cur (fun i => by simpa using h (i + 1))

theorem capture_last (op : String) (toks : List String) :
    ∀ (cur : Token) (i : Nat), toks[i]? = some op → (∀ j : Nat, i < j → toks[j]? ≠ some op) →
      capture op toks cur = toks[i + 1]? := by
  induction toks with
  | nil => intro cur i h; simp at h
  | cons t ts ih =>
    intro cur i h hlast
    cases i with
    | zero =>
      have h0 : t = op := by simpa using h
      rw [capture, if_pos h0, capture_absent op ts _
        (fun i => by simpa using hlast (i + 1) (Nat.succ_pos i))]
      cases ts <;> simp
    | succ i =>
      rw [capture]
      have := ih (if t = op then ts.head? else cur) i (by simpa using h)
        (fun j hj => by simpa using hlast (j + 1) (Nat.succ_lt_succ hj))
      simpa using this

/-- C2 (failing input): on `a | b | c` the two records of `piped_execute` are cut at the
last `|`: the first holds `a b `, the second `c `, where a cut at the first `|` gives
`a ` and `b c `. -/
theorem piped_log_cut_at_last_pipe :
    (returned (piped_execute calmEnv freshWorld threeStages)).map (fun w => w.log) =
        some [recordText 101 ["a", "b"], recordText 102 ["c"]] ∧
      [recordText 101 ["a", "b"], recordText 102 ["c"]] ≠
        [recordText 101 ["a"], recordText 102 ["b", "c"]] := by
  decide

/-- C4 (failing input): on a line of twenty plain tokens the one record written by
`standard_execute` holds the first nineteen tokens only. -/
theorem single_log_drops_twentieth :
    (returned (standard_execute calmEnv freshWorld (twentyTokens.map some ++ [none]))).map
        (fun w => w.log) = some [recordText 101 (twentyTokens.take 19)] ∧
      recordText 101 (twentyTokens.take 19) ≠ recordText 101 twentyTokens := by
  decide

/-- C5 (failing input): on `a | b | c` with every `fork` succeeding, `standard_execute`
creates two children and calls `wait` three times. -/
theorem waits_exceed_children :
    (returned (standard_execute calmEnv freshWorld threeStages)).map
        (fun w => (w.children, w.waits)) = some (2, 3) := by
  decide

/-- C8 (failing input): on `a | b | c` with the first `fork` failing, one child is
created and still two records are written, the first with handle `-1`. -/
theorem record_written_for_failed_fork :
    (returned (standard_execute firstForkFails freshWorld threeStages)).map
        (fun w => (w.children, w.log)) =
      some (1, ["PID: -1\nCommand: a b \n\n", "PID: 102\nCommand: c \n\n"]) := by
  decide

/-- C10 (failing input): on `a | b` the array `pid` is declared with one element and is
written, tested and read at index 1. -/
theorem pid_index_out_of_bounds :
    (returned (piped_execute calmEnv freshWorld twoStages)).map (fun w => w.pidAccess) =
      some [(0, 1), (0, 1), (1, 1), (1, 1), (0, 1), (1, 1)] := by
  decide

/-- C7 (counterexample): on `cat < missing`, the file not being readable,
`standard_execute` does not return: the process exits with `EXIT_FAILURE`. -/
theorem open_failure_ends_session :
    exitStatus (standard_execute unreadable freshWorld catMissing) = some EXIT_FAILURE ∧
      (returned (standard_execute unreadable freshWorld catMissing)).isSome = false := by
  decide

/-! ## Frame lemmas: what the descriptor calls leave alone -/

theorem SameLedger.refl (w : World) : SameLedger w w :=
  ⟨rfl, rfl, rfl, rfl, rfl, rfl, rfl⟩

theorem SameLedger.trans {w v u : World} (h1 : SameLedger w v) (h2 : SameLedger v u) :
    SameLedger w u := by
  obtain ⟨a1, a2, a3, a4, a5, a6, a7⟩ := h1
  obtain ⟨b1, b2, b3, b4, b5, b6, b7⟩ := h2
  exact ⟨b1.trans a1, b2.trans a2, b3.trans a3, b4.trans a4, b5.trans a5, b6.trans a6,
    b7.trans a7⟩

theorem sameLedger_setFds (w : World) (t : FdTable) : SameLedger w (w.setFds t) :=
  ⟨rfl, rfl, rfl, rfl, rfl, rfl, rfl⟩

theorem sameLedger_dup (env : Env) (w : World) (fd : Int) :
    SameLedger w (sys_dup env w fd).2 := by
  unfold sys_dup
  split
  · exact sameLedger_setFds _ _
  · exact SameLedger.refl w

theorem sameLedger_pipe (env : Env) (w : World) (i : Nat) :
    SameLedger w (sys_pipe env w i).2 := by
  unfold sys_pipe
  split
  · split
    · exact sameLedger_setFds _ _
    · exact SameLedger.refl w
  · exact SameLedger.refl w

theorem sameLedger_dup2 (env : Env) (w : World) (oldfd : Int) (newfd : Nat) :
    SameLedger w (sys_dup2 env w oldfd newfd).2 := by
  unfold sys_dup2
  split
  · exact SameLedger.refl w
  · split
    · exact SameLedger.refl w
    · split
      · exact SameLedger.refl w
      · exact sameLedger_setFds _ _

theorem sameLedger_close (w : World) (fd : Int) : SameLedger w (sys_close w fd) := by
  unfold sys_close
  split
  · exact SameLedger.refl w
  · exact sameLedger_setFds _ _

theorem lowestFree_spec {n : Nat} {t : FdTable} {k : Nat} (h : lowestFree n t = some k) :
    k < n ∧ t k = none := by
  unfold lowestFree at h
  have h1 := List.find?_some h
  have h2 := List.mem_of_find?_eq_some h
  exact ⟨List.mem_range.mp h2, by simpa using h1⟩

theorem lookupFd_natCast (t : FdTable) (k : Nat) : lookupFd t (k : Int) = t k := by
  simp [lookupFd]

theorem countPipes_total (rest : List Token) (toks : List String) :
    ∀ n, ∃ m, countPipes (toks.map some ++ none :: rest) n = some m := by
  induction toks with
  | nil => intro n; exact ⟨n, by simp [countPipes]⟩
  | cons t ts ih =>
    intro n
    rw [List.map_cons, List.cons_append, countPipes]
    exact ih _

/-- Redirecting standard input either succeeds, or fails at `open` and exits with
`EXIT_FAILURE`; in both cases only the descriptor table has changed before the report. -/
theorem redirect_stdin_cases (env : Env) (w : World) (file : Token)
    (resolve : String → Option Nat) :
    (∃ v, redirect env w file resolve STDIN_FILENO = .ok v ∧ SameLedger w v) ∨
      ∃ v, redirect env w file resolve STDIN_FILENO =
        .error (.exited EXIT_FAILURE (v.perror "open")) ∧ SameLedger w v := by
  cases file with
  | none => exact Or.inl ⟨w, rfl, SameLedger.refl w⟩
  | some path =>
    unfold redirect
    simp only
    unfold sys_open
    cases hr : resolve path with
    | none => exact Or.inr ⟨w, by simp, SameLedger.refl w⟩
    | some f =>
      cases hl : lowestFree env.nofile w.fds with
      | none => exact Or.inr ⟨w, by simp, SameLedger.refl w⟩
      | some k =>
        left
        have hk := (lowestFree_spec hl).1
        have h1 : ((k : Int) = -1) = False := by
          simp only [eq_iff_iff, iff_false]; omega
        have h2 : ¬ env.nofile ≤ STDIN_FILENO := by
          simp only [STDIN_FILENO]; omega
        have h3 : lookupFd (w.setFds (putFd w.fds k (some f))).fds (k : Int) = some f := by
          simp [lookupFd, World.setFds, putFd]
        simp only [h1, if_false]
        unfold sys_dup2
        simp only [h3, h2, if_false]
        split
        · exact ⟨_, if_neg (by simp), (sameLedger_setFds _ _).trans (sameLedger_close _ _)⟩
        · exact ⟨_, if_neg (by simp),
            ((sameLedger_setFds _ _).trans (sameLedger_setFds _ _)).trans
              (sameLedger_close _ _)⟩

theorem redirect_unopenable (env : Env) (w : World) (p : String)
    (resolve : String → Option Nat) (target : Nat) (h : resolve p = none) :
    redirect env w (some p) resolve target =
      .error (.exited EXIT_FAILURE (w.perror "open")) := by
  simp [redirect, sys_open, h]

/-- C7 (as amended): when the target of `<` or of `>` cannot be opened, `standard_execute`
reports the error of `open`, creates no process, writes no log record, and the process
exits with `EXIT_FAILURE`: it does not return to its caller. -/
theorem open_failure_is_fatal (env : Env) (w : World) (toks : List String)
    (rest : List Token) (p : String)
    (h : (IsTarget "<" toks p ∧ env.openRead p = none) ∨
      (IsTarget ">" toks p ∧ env.openWrite p = none)) :
    ∃ v, standard_execute env w (toks.map some ++ none :: rest) =
        .error (.exited EXIT_FAILURE v) ∧
      v.err = w.err ++ ["open"] ∧ v.forked = w.forked ∧ v.children = w.children ∧
      v.log = w.log := by
  obtain ⟨m, hm⟩ := countPipes_total rest toks 0
  have hled : SameLedger w (sys_dup env (sys_dup env w STDIN_FILENO).2 STDOUT_FILENO).2 :=
    (sameLedger_dup _ _ _).trans (sameLedger_dup _ _ _)
  unfold standard_execute
  simp only [hm, redirScan, redirLoop_eq]
  rcases h with ⟨⟨i, hi, hlast, hp⟩, hopen⟩ | ⟨⟨i, hi, hlast, hp⟩, hopen⟩
  · rw [capture_last "<" toks none i hi hlast, hp, redirect_unopenable _ _ _ _ _ hopen]
    obtain ⟨a1, a2, a3, a4, -, -, -⟩ := hled
    exact ⟨_, rfl, congrArg (fun l => l ++ ["open"]) a2, a3, a4, a1⟩
  · rw [capture_last ">" toks none i hi hlast, hp]
    rcases redirect_stdin_cases env
        (sys_dup env (sys_dup env w STDIN_FILENO).2 STDOUT_FILENO).2
        (capture "<" toks none) env.openRead with ⟨v, hv, hs⟩ | ⟨v, hv, hs⟩
    · rw [hv]
      simp only
      rw [redirect_unopenable _ _ _ _ _ hopen]
      obtain ⟨a1, a2, a3, a4, -, -, -⟩ := hled.trans hs
      exact ⟨_, rfl, congrArg (fun l => l ++ ["open"]) a2, a3, a4, a1⟩
    · rw [hv]
      obtain ⟨a1, a2, a3, a4, -, -, -⟩ := hled.trans hs
      exact ⟨_, rfl, congrArg (fun l => l ++ ["open"]) a2, a3, a4, a1⟩

/-- C7 (witness): `cat < missing` with an unreadable target. -/
theorem open_failure_is_fatal_witness :
    ((IsTarget "<" ["cat", "<", "missing"] "missing" ∧ unreadable.openRead "missing" = none) ∨
        (IsTarget ">" ["cat", "<", "missing"] "missing" ∧
          unreadable.openWrite "missing" = none)) ∧
      ∃ v, standard_execute unreadable freshWorld
          (["cat", "<", "missing"].map some ++ none :: []) =
          .error (.exited EXIT_FAILURE v) ∧
        v.err = freshWorld.err ++ ["open"] ∧ v.forked = freshWorld.forked ∧
        v.children = freshWorld.children ∧ v.log = freshWorld.log :=
  have h : (IsTarget "<" ["cat", "<", "missing"] "missing" ∧
        unreadable.openRead "missing" = none) ∨
      (IsTarget ">" ["cat", "<", "missing"] "missing" ∧
        unreadable.openWrite "missing" = none) :=
    Or.inl ⟨⟨1, by decide, fun j hj => by
      rcases j with _ | _ | _ | j
      · omega
      · omega
      · decide
      · simp, by decide⟩, rfl⟩
  ⟨h, open_failure_is_fatal unreadable freshWorld ["cat", "<", "missing"] [] "missing" h⟩

/-! ## The child branches -/

theorem stageEnd_le (l : List Token) :
    ∀ k e, stageEnd l k = some e → k ≤ e := by
  induction l with
  | nil => intro k e h; simp [stageEnd] at h
  | cons y ys ih =>
    intro k e h
    cases y with
    | none => simp only [stageEnd, Option.some.injEq] at h; omega
    | some u =>
      rw [stageEnd] at h
      split at h
      · simp only [Option.some.injEq] at h; omega
      · have := ih (k + 1) e h; omega

theorem stageEnd_slice (l : List Token) :
    ∀ k e, stageEnd l k = some e →
      ∃ stage : List String, l.take (e - k) = stage.map some ∧ "|" ∉ stage ∧
        stage.length = e - k := by
  induction l with
  | nil => intro k e h; simp [stageEnd] at h
  | cons x xs ih =>
    intro k e h
    cases x with
    | none =>
      simp only [stageEnd, Option.some.injEq] at h
      subst h
      exact ⟨[], by simp, by simp, by simp⟩
    | some t =>
      rw [stageEnd] at h
      by_cases hp : t = "|"
      · rw [if_pos hp] at h
        simp only [Option.some.injEq] at h
        subst h
        exact ⟨[], by simp, by simp, by simp⟩
      · rw [if_neg hp] at h
        obtain ⟨stage, h1, h2, h3⟩ := ih (k + 1) e h
        have hk := stageEnd_le xs (k + 1) e h
        have he : e - k = (e - (k + 1)) + 1 := by omega
        refine ⟨t :: stage, ?_, ?_, ?_⟩
        · rw [he, List.take_succ_cons, h1, List.map_cons]
        · simpa using ⟨fun h => hp h.symm, h2⟩
        · rw [List.length_cons, h3, he]

theorem argvOf_terminated (stage : List String) (rest : List Token) :
    argvOf (stage.map some ++ none :: rest) = some stage := by
  induction stage with
  | nil => rfl
  | cons t ts ih => rw [List.map_cons, List.cons_append, argvOf, ih]; rfl

theorem head_terminated (stage : List String) (rest : List Token) :
    (stage.map some ++ none :: rest).head?.join = stage.head? := by
  cases stage <;> rfl

theorem standard_child_exec (env : Env) (w : World) (commands : List Token)
    (file : String) (argv : List String)
    (h1 : env.sigint_rec 0 = false) (h2 : env.sigterm_rec 0 = false)
    (hfile : commands.head?.join = some file) (hargv : argvOf commands = some argv) :
    ∃ u, u.execs = w.execs ++ [(some file, argv)] ∧
      standard_child env w commands =
        if env.execvp (some file) argv then .replaced u
        else .exited EXIT_FAILURE (u.perror "shell") := by
  refine ⟨{ w with execs := w.execs ++ [(some file, argv)] }, rfl, ?_⟩
  unfold standard_child
  rw [h1, h2, hfile, hargv]
  rfl

theorem dispatch_child (env : Env) (w : World) (commands : List Token)
    (hfork : env.fork w.forked = 0) :
    dispatch env w commands 0 = .error (standard_child env (sys_fork env w).2 commands) := by
  simp [dispatch, sys_fork, hfork]

theorem sameLedger_wiring (env : Env) (w : World) (i num_pipes : Nat)
    (pipe_fds : Nat → Int × Int) :
    SameLedger w
      (if i < num_pipes then
        sys_close (sys_dup2 env (sys_close
          (if 0 < i then
            sys_close (sys_dup2 env (sys_close w (pipe_fds (i - 1)).2)
              (pipe_fds (i - 1)).1 STDIN_FILENO).2 (pipe_fds (i - 1)).1
          else w) (pipe_fds i).1)
          (pipe_fds i).2 STDOUT_FILENO).2 (pipe_fds i).2
      else
        if 0 < i then
          sys_close (sys_dup2 env (sys_close w (pipe_fds (i - 1)).2)
            (pipe_fds (i - 1)).1 STDIN_FILENO).2 (pipe_fds (i - 1)).1
        else w) := by
  have h1 : SameLedger w
      (if 0 < i then
        sys_close (sys_dup2 env (sys_close w (pipe_fds (i - 1)).2)
          (pipe_fds (i - 1)).1 STDIN_FILENO).2 (pipe_fds (i - 1)).1
      else w) := by
    split
    · exact ((sameLedger_close _ _).trans (sameLedger_dup2 _ _ _ _)).trans
        (sameLedger_close _ _)
    · exact SameLedger.refl w
  split
  · exact h1.trans (((sameLedger_close _ _).trans (sameLedger_dup2 _ _ _ _)).trans
      (sameLedger_close _ _))
  · exact h1

theorem piped_child_cancelled (env : Env) (w : World) (commands : List Token)
    (i num_pipes cmd_start cmd_end : Nat) (pipe_fds : Nat → Int × Int)
    (h : env.sigint_rec 0 = true ∨ env.sigterm_rec 0 = true ∨
      env.sigint_rec 1 = true ∨ env.sigterm_rec 1 = true) :
    ∃ u, piped_child env w commands i num_pipes cmd_start cmd_end pipe_fds =
      .exited EXIT_SUCCESS u ∧ u.execs = w.execs := by
  unfold piped_child
  by_cases h0 : (env.sigint_rec 0 || env.sigterm_rec 0) = true
  · exact ⟨w, by rw [if_pos h0], rfl⟩
  · have h1 : (env.sigint_rec 1 || env.sigterm_rec 1) = true := by
      simp only [Bool.or_eq_true, not_or] at h0
      rcases h with h | h | h | h
      · exact absurd h h0.1
      · exact absurd h h0.2
      · simp [h]
      · simp [h]
    rw [if_neg h0]
    simp only [h1, if_true]
    exact ⟨_, rfl, (sameLedger_wiring env w i num_pipes pipe_fds).2.2.2.2.2.1⟩

theorem piped_child_exec (env : Env) (w : World) (commands : List Token)
    (i num_pipes cmd_start cmd_end : Nat) (pipe_fds : Nat → Int × Int)
    (t : String) (ts : List String)
    (h1 : env.sigint_rec 0 = false) (h2 : env.sigterm_rec 0 = false)
    (h3 : env.sigint_rec 1 = false) (h4 : env.sigterm_rec 1 = false)
    (hs : (commands.drop cmd_start).take (cmd_end - cmd_start) = (t :: ts).map some)
    (hlen : cmd_end - cmd_start ≤ MAX_COMMANDS) :
    ∃ u, u.execs = w.execs ++ [(some t, t :: ts)] ∧
      piped_child env w commands i num_pipes cmd_start cmd_end pipe_fds =
        if env.execvp (some t) (t :: ts) then .replaced u
        else .exited EXIT_FAILURE (u.perror "piped_execute") := by
  have hwire := sameLedger_wiring env w i num_pipes pipe_fds
  have hhead : ((List.map some (t :: ts)) ++ [none]).head?.join = some t := rfl
  unfold piped_child
  simp only [h1, h2, h3, h4, Bool.or_self, Bool.false_eq_true, if_false,
    Nat.not_lt.mpr hlen, hs, argvOf_terminated, hhead]
  exact ⟨_, congrArg (fun l => l ++ [(some t, t :: ts)]) hwire.2.2.2.2.2.1, rfl⟩

/-- The cancellation checkpoint of the single-stage child, through `dispatch`: in the
process in which `fork` returns 0, a flag set at the check makes the child exit with
`EXIT_SUCCESS` without an `execvp` call; with both flags clear and a program in
`commands[0]`, the child calls `execvp` once with the array up to its first `NULL`, and
exits with `EXIT_FAILURE` when the call fails. -/
theorem single_child_checkpoint (env : Env) (w : World) (commands : List Token)
    (hfork : env.fork w.forked = 0) :
    ((env.sigint_rec 0 = true ∨ env.sigterm_rec 0 = true) →
      ∃ u, dispatch env w commands 0 = .error (.exited EXIT_SUCCESS u) ∧
        u.execs = w.execs) ∧
    ((env.sigint_rec 0 = false ∧ env.sigterm_rec 0 = false) →
      ∀ file argv, commands.head?.join = some file → argvOf commands = some argv →
        ∃ u, u.execs = w.execs ++ [(some file, argv)] ∧
          dispatch env w commands 0 =
            .error (if env.execvp (some file) argv then .replaced u
              else .exited EXIT_FAILURE (u.perror "shell"))) := by
  rw [dispatch_child env w commands hfork]
  constructor
  · intro h
    have hf : (env.sigint_rec 0 || env.sigterm_rec 0) = true := by
      rcases h with h | h <;> simp [h]
    exact ⟨(sys_fork env w).2, by simp [standard_child, hf], rfl⟩
  · rintro ⟨h1, h2⟩ file argv hfile hargv
    obtain ⟨u, hu, he⟩ :=
      standard_child_exec env (sys_fork env w).2 commands file argv h1 h2 hfile hargv
    exact ⟨u, hu, by rw [he]⟩

/-- The cancellation checkpoint of a pipeline child, through one round of the loop of
`piped_execute`: in the process in which `fork` returns 0 (the pipe of the round, if any,
having been made), a flag set at either check makes the child exit with `EXIT_SUCCESS`
without an `execvp` call; with the flags clear at both checks and a stage that is not
empty, the child calls `execvp` once with the tokens of `commands[cmd_start .. cmd_end)`,
none of them `|`, and exits with `EXIT_FAILURE` when the call fails. -/
theorem pipeline_child_checkpoint (env : Env) (commands : List Token) (num_pipes : Nat)
    (s : PipedState) (i cmd_end : Nat)
    (hend : stageEnd (commands.drop s.cmd_start) s.cmd_start = some cmd_end)
    (hmade : i < num_pipes → (sys_pipe env s.w i).1 ≠ none)
    (hfork : env.fork s.w.forked = 0) :
    ((env.sigint_rec 0 = true ∨ env.sigterm_rec 0 = true ∨
        env.sigint_rec 1 = true ∨ env.sigterm_rec 1 = true) →
      ∃ u, piped_stage env commands num_pipes s i = .error (.exited EXIT_SUCCESS u) ∧
        u.execs = s.w.execs) ∧
    ((env.sigint_rec 0 = false ∧ env.sigterm_rec 0 = false ∧
        env.sigint_rec 1 = false ∧ env.sigterm_rec 1 = false) →
      s.cmd_start < cmd_end → cmd_end - s.cmd_start ≤ MAX_COMMANDS →
      ∃ (t : String) (ts : List String) (u : World),
        (commands.drop s.cmd_start).take (cmd_end - s.cmd_start) = (t :: ts).map some ∧
        "|" ∉ t :: ts ∧ u.execs = s.w.execs ++ [(some t, t :: ts)] ∧
        piped_stage env commands num_pipes s i =
          .error (if env.execvp (some t) (t :: ts) then .replaced u
            else .exited EXIT_FAILURE (u.perror "piped_execute"))) := by
  -- the round up to the child branch
  have hround : ∃ (v : World) (pf : Nat → Int × Int), v.execs = s.w.execs ∧
      piped_stage env commands num_pipes s i =
        .error (piped_child env v commands i num_pipes s.cmd_start cmd_end pf) := by
    unfold piped_stage
    rw [hend]
    by_cases hi : i < num_pipes
    · have hled := sameLedger_pipe env s.w i
      have hm := hmade hi
      rcases hsp : sys_pipe env s.w i with ⟨o, w1⟩
      rw [hsp] at hled hm
      cases o with
      | none => exact absurd rfl hm
      | some p =>
        obtain ⟨-, -, a3, -, -, a6, -⟩ := hled
        have hf : env.fork w1.forked = 0 := by
          have : w1.forked = s.w.forked := a3
          rw [this]; exact hfork
        refine ⟨((sys_fork env w1).2.notePid i num_pipes).notePid i num_pipes,
          fun k => if k = i then p else s.pipe_fds k, a6, ?_⟩
        simp only [hi, if_true, sys_fork, hf]
    · refine ⟨((sys_fork env s.w).2.notePid i num_pipes).notePid i num_pipes,
        s.pipe_fds, rfl, ?_⟩
      simp only [hi, if_false, if_true, sys_fork, hfork]
  obtain ⟨v, pf, hv, hrun⟩ := hround
  rw [hrun]
  constructor
  · intro h
    obtain ⟨u, hu, he⟩ := piped_child_cancelled env v commands i num_pipes s.cmd_start
      cmd_end pf h
    exact ⟨u, by rw [hu], he.trans hv⟩
  · rintro ⟨h1, h2, h3, h4⟩ hne hlen
    obtain ⟨stage, hs, hp, hl⟩ := stageEnd_slice _ _ _ hend
    cases stage with
    | nil =>
      simp only [List.length_nil] at hl
      omega
    | cons t ts =>
      obtain ⟨u, hu, he⟩ := piped_child_exec env v commands i num_pipes s.cmd_start cmd_end
        pf t ts h1 h2 h3 h4 hs hlen
      exact ⟨t, ts, u, hs, hp, by rw [hu, hv], by rw [he]⟩

/-- C9 (failing input): with both flags clear, the child of the empty line and the second
child of `a |` reach `execvp` with a null file name: the run is undefined, where a child
that attempts the replacement and fails exits with `EXIT_FAILURE`. -/
theorem empty_stage_child_undefined :
    isUndefined (standard_execute firstChild freshWorld emptyLine) = true ∧
      isUndefined (standard_execute secondChild freshWorld trailingPipe) = true := by
  decide

/-- C6 (counterexample): started with standard output closed, `cat < in > out` makes
`standard_execute` return with standard input on the output file (file 60) instead of
the terminal (file 1). -/
theorem stdin_lost_when_stdout_closed :
    (returned (standard_execute calmEnv stdoutClosed catInOut)).map
        (fun w => (w.fds STDIN_FILENO, w.fds STDOUT_FILENO)) = some (some 60, none) ∧
      (stdoutClosed.fds STDIN_FILENO, stdoutClosed.fds STDOUT_FILENO) = (some 1, none) := by
  decide

/-! ## Descriptors that a run keeps -/

theorem keepsOn_refl (P : Nat → Prop) (w : World) : KeepsOn P w w :=
  ⟨fun _ _ => rfl, [], by simp, by simp⟩

theorem keepsOn_setFds {P : Nat → Prop} {w v : World} (h : KeepsOn P w v) (t : FdTable)
    (ht : ∀ fd, P fd → t fd = w.fds fd) : KeepsOn P w (v.setFds t) := by
  obtain ⟨_, l, hl, hall⟩ := h
  refine ⟨ht, l ++ [t], by simp [World.setFds, hl], ?_⟩
  intro u hu fd hfd
  rcases List.mem_append.mp hu with hu | hu
  · exact hall u hu fd hfd
  · rw [List.mem_singleton.mp hu]; exact ht fd hfd

theorem keepsOn_congr {P : Nat → Prop} {w v u : World} (h : KeepsOn P w v)
    (hf : u.fds = v.fds) (hs : u.seen = v.seen) : KeepsOn P w u := by
  obtain ⟨h1, l, hl, hall⟩ := h
  exact ⟨fun fd hfd => by rw [hf]; exact h1 fd hfd, l, by rw [hs, hl], hall⟩

theorem open_of_keeps {P : Nat → Prop} {w v : World} (hP : ∀ fd, P fd → w.fds fd ≠ none)
    (h : KeepsOn P w v) {k : Nat} (hk : v.fds k = none) : ¬ P k := by
  intro hfd
  have := h.1 k hfd
  rw [hk] at this
  exact hP k hfd this.symm

theorem put_free {P : Nat → Prop} {w v : World} (hP : ∀ fd, P fd → w.fds fd ≠ none)
    (h : KeepsOn P w v) {k : Nat} (hk : v.fds k = none) (x : Option Nat) :
    ∀ fd, P fd → putFd v.fds k x fd = w.fds fd := by
  intro fd hfd
  have hne : fd ≠ k := by
    rintro rfl
    exact open_of_keeps hP h hk hfd
  simp [putFd, hne, h.1 fd hfd]

theorem put_other {P : Nat → Prop} {w v : World} (h : KeepsOn P w v) {k : Nat}
    (hk : ¬ P k) (x : Option Nat) : ∀ fd, P fd → putFd v.fds k x fd = w.fds fd := by
  intro fd hfd
  have hne : fd ≠ k := by
    rintro rfl
    exact hk hfd
  simp [putFd, hne, h.1 fd hfd]

theorem fresh_natCast {P : Nat → Prop} {k : Nat} (hk : ¬ P k) : Fresh P (k : Int) :=
  Or.inr (by simpa using hk)

theorem keepsOn_dup {P : Nat → Prop} {w v : World} (hP : ∀ fd, P fd → w.fds fd ≠ none)
    (h : KeepsOn P w v) (env : Env) (x : Int) :
    KeepsOn P w (sys_dup env v x).2 ∧ Fresh P (sys_dup env v x).1 := by
  unfold sys_dup
  split
  next f k _ hk =>
    have hfree := (lowestFree_spec hk).2
    exact ⟨keepsOn_setFds h _ (put_free hP h hfree _),
      fresh_natCast (open_of_keeps hP h hfree)⟩
  next => exact ⟨h, Or.inl (show (-1 : Int) < 0 by decide)⟩

theorem keepsOn_open {P : Nat → Prop} {w v : World} (hP : ∀ fd, P fd → w.fds fd ≠ none)
    (h : KeepsOn P w v) (env : Env) (file : Option Nat) :
    KeepsOn P w (sys_open env v file).2 ∧ Fresh P (sys_open env v file).1 := by
  unfold sys_open
  split
  next f k hk =>
    have hfree := (lowestFree_spec hk).2
    exact ⟨keepsOn_setFds h _ (put_free hP h hfree _),
      fresh_natCast (open_of_keeps hP h hfree)⟩
  next => exact ⟨h, Or.inl (show (-1 : Int) < 0 by decide)⟩

theorem keepsOn_close {P : Nat → Prop} {w v : World} (h : KeepsOn P w v) {x : Int}
    (hx : Fresh P x) : KeepsOn P w (sys_close v x) := by
  unfold sys_close
  split
  · exact h
  next f hf =>
    rcases hx with hx | hx
    · simp [lookupFd, hx] at hf
    · exact keepsOn_setFds h _ (put_other h hx _)

theorem keepsOn_dup2 {P : Nat → Prop} {w v : World} (h : KeepsOn P w v) (env : Env)
    (x : Int) {n : Nat} (hn : ¬ P n) : KeepsOn P w (sys_dup2 env v x n).2 := by
  unfold sys_dup2
  split
  · exact h
  · split
    · exact h
    · split
      · exact h
      · exact keepsOn_setFds h _ (put_other h hn _)

theorem keepsOn_pipe {P : Nat → Prop} {w v : World} (hP : ∀ fd, P fd → w.fds fd ≠ none)
    (h : KeepsOn P w v) (env : Env) (i : Nat) :
    KeepsOn P w (sys_pipe env v i).2 ∧
      ∀ p, (sys_pipe env v i).1 = some p → Fresh P p.1 ∧ Fresh P p.2 := by
  unfold sys_pipe
  split
  next ends r _ hr =>
    have hfree := (lowestFree_spec hr).2
    have hr1 : ¬ P r := open_of_keeps hP h hfree
    split
    next wr hwr =>
      have hfree2 := (lowestFree_spec hwr).2
      have hk1 : KeepsOn P w (v.setFds (putFd v.fds r (some ends.1))) :=
        keepsOn_setFds h _ (put_free hP h hfree _)
      have hw1 : ¬ P wr := open_of_keeps hP hk1 hfree2
      refine ⟨keepsOn_setFds h _ ?_, ?_⟩
      · intro fd hfd
        have := put_other hk1 hw1 (some ends.2) fd hfd
        simpa [World.setFds] using this
      · intro p hp
        simp only [Option.some.injEq] at hp
        subst hp
        exact ⟨fresh_natCast hr1, fresh_natCast hw1⟩
    next => exact ⟨h, by simp⟩
  next => exact ⟨h, by simp⟩

theorem log_commands_fds {env : Env} {v u : World} {pid : Int} {cmds : List Token}
    {e : Int} (h : log_commands env v pid cmds e = .ok u) :
    u.fds = v.fds ∧ u.seen = v.seen := by
  unfold log_commands at h
  split at h
  · split at h
    · simp only [Except.ok.injEq] at h
      subst h
      exact ⟨rfl, rfl⟩
    · simp at h
  · simp at h

theorem piped_stage_keeps {P : Nat → Prop} {w : World}
    (hP : ∀ fd, P fd → w.fds fd ≠ none) {env : Env} {cmds : List Token} {m i : Nat}
    {s t : PipedState} (h : KeepsOn P w s.w) (hs : piped_stage env cmds m s i = .ok t) :
    KeepsOn P w t.w ∧ (i < m → Fresh P (t.pipe_fds i).1 ∧ Fresh P (t.pipe_fds i).2) ∧
      ∀ k, k ≠ i → t.pipe_fds k = s.pipe_fds k := by
  unfold piped_stage at hs
  split at hs
  · simp at hs
  next cmd_end _ =>
    by_cases hi : i < m
    · simp only [hi, if_true] at hs
      have hpipe := keepsOn_pipe hP h env i
      rcases hsp : sys_pipe env s.w i with ⟨o, w1⟩
      rw [hsp] at hs hpipe
      cases o with
      | none => simp at hs
      | some p =>
        simp only at hs
        split at hs
        · simp at hs
        · split at hs
          · simp at hs
          · simp only [Except.ok.injEq] at hs
            subst hs
            refine ⟨keepsOn_congr hpipe.1 rfl rfl, fun _ => ?_, fun k hk => ?_⟩
            · simpa using hpipe.2 p rfl
            · simp [hk]
    · simp only [hi, if_false, if_true] at hs
      split at hs
      · simp at hs
      · split at hs
        · simp at hs
        · simp only [Except.ok.injEq] at hs
          subst hs
          exact ⟨keepsOn_congr h rfl rfl, fun h' => absurd h' hi, fun k _ => rfl⟩

theorem foldlM_two (f : PipedState → Nat → Except Halt PipedState) (s : PipedState) :
    [0, 1].foldlM f s =
      match f s 0 with
      | .error h => .error h
      | .ok t => f t 1 := by
  simp only [List.foldlM, bind, Except.bind, pure, Except.pure]
  cases f s 0 with
  | error h => rfl
  | ok t => simp only; cases f t 1 <;> rfl

theorem closePipes_keeps {P : Nat → Prop} {w v : World} (h : KeepsOn P w v)
    (pf : Nat → Int × Int) {m : Nat} (hm : m ≤ 2)
    (h0 : 0 < m → Fresh P (pf 0).1 ∧ Fresh P (pf 0).2)
    (h1 : 1 < m → Fresh P (pf 1).1 ∧ Fresh P (pf 1).2) :
    KeepsOn P w (closePipes v pf m) := by
  unfold closePipes
  interval_cases m
  · simpa using h
  · have a := h0 (by decide)
    simpa [List.range_succ] using keepsOn_close (keepsOn_close h a.1) a.2
  · have a := h0 (by decide)
    have b := h1 (by decide)
    simpa [List.range_succ] using
      keepsOn_close (keepsOn_close (keepsOn_close (keepsOn_close h a.1) a.2) b.1) b.2

theorem piped_execute_keeps {P : Nat → Prop} {w v u : World}
    (hP : ∀ fd, P fd → w.fds fd ≠ none) {env : Env} {cmds : List Token}
    (h : KeepsOn P w v)
    (hm : ∀ m e, pipeScan cmds 0 0 (-1) = some (m, e) → m ≤ 2)
    (hret : piped_execute env v cmds = .ok u) : KeepsOn P w u := by
  unfold piped_execute at hret
  split at hret
  · simp at hret
  next m e hscan =>
    have hm2 := hm m e hscan
    rw [foldlM_two] at hret
    cases hs0 : piped_stage env cmds m (PipedState.mk v 0 (fun _ => 0) env.pipe_fds) 0 with
    | error x => simp [hs0] at hret
    | ok s1 =>
      rw [hs0] at hret
      simp only at hret
      cases hs1 : piped_stage env cmds m s1 1 with
      | error x => simp [hs1] at hret
      | ok s2 =>
        rw [hs1] at hret
        simp only at hret
        obtain ⟨k1, f1, -⟩ := piped_stage_keeps hP h hs0
        obtain ⟨k2, f2, g2⟩ := piped_stage_keeps hP k1 hs1
        have hclose : KeepsOn P w (closePipes s2.w s2.pipe_fds m) :=
          closePipes_keeps k2 _ hm2
            (fun h0 => by rw [g2 0 (by decide)]; exact f1 h0) f2
        split at hret
        · simp at hret
        · split at hret
          · simp at hret
          next w2 hw2 =>
            split at hret
            · simp at hret
            · split at hret
              · simp at hret
              next w3 hw3 =>
                simp only [Except.ok.injEq] at hret
                subst hret
                obtain ⟨a1, a2⟩ := log_commands_fds hw2
                obtain ⟨b1, b2⟩ := log_commands_fds hw3
                exact keepsOn_congr hclose (by rw [b1]; exact a1) (by rw [b2]; exact a2)

theorem dispatch_keeps {P : Nat → Prop} {w v u : World}
    (hP : ∀ fd, P fd → w.fds fd ≠ none) {env : Env} {cmds : List Token} {n : Nat}
    (h : KeepsOn P w v)
    (hm : ∀ m e, pipeScan cmds 0 0 (-1) = some (m, e) → m ≤ 2)
    (hret : dispatch env v cmds n = .ok u) : KeepsOn P w u := by
  unfold dispatch at hret
  split at hret
  · simp only at hret
    split at hret
    · simp at hret
    · split at hret
      · simp only [Except.ok.injEq] at hret
        subst hret
        exact keepsOn_congr h rfl rfl
      · obtain ⟨a1, a2⟩ := log_commands_fds hret
        exact keepsOn_congr h a1 a2
  · exact piped_execute_keeps hP h hm hret

theorem pipeScan_le (rest : List Token) (toks : List String) :
    ∀ (i n : Nat) (e : Int) (m : Nat) (e1 : Int),
      pipeScan (toks.map strike ++ none :: rest) i n e = some (m, e1) →
        m ≤ n + toks.count "|" := by
  induction toks with
  | nil =>
    intro i n e m e1 h
    simp only [List.map_nil, List.nil_append, pipeScan, Option.some.injEq,
      Prod.mk.injEq] at h
    omega
  | cons t ts ih =>
    intro i n e m e1 h
    rw [List.map_cons, List.cons_append] at h
    by_cases hop : t = "<" ∨ t = ">"
    · have hs : strike t = none := by simp [strike, hop]
      rw [hs] at h
      simp only [pipeScan, Option.some.injEq, Prod.mk.injEq] at h
      omega
    · have hs : strike t = some t := by simp [strike, hop]
      rw [hs, pipeScan] at h
      by_cases hp : t = "|"
      · rw [if_pos hp] at h
        have := ih _ _ _ _ _ h
        rw [hp, List.count_cons_self]
        omega
      · rw [if_neg hp] at h
        have := ih _ _ _ _ _ h
        rw [List.count_cons_of_ne (fun h' => hp h'.symm)]
        exact this

theorem redirect_keeps {P : Nat → Prop} {w v u : World}
    (hP : ∀ fd, P fd → w.fds fd ≠ none) {env : Env} {file : Token}
    {resolve : String → Option Nat} {target : Nat} (h : KeepsOn P w v)
    (ht : file ≠ none → ¬ P target)
    (hr : redirect env v file resolve target = .ok u) : KeepsOn P w u := by
  cases file with
  | none =>
    simp only [redirect, Except.ok.injEq] at hr
    subst hr
    exact h
  | some path =>
    have hopen := keepsOn_open hP h env (resolve path)
    unfold redirect at hr
    simp only at hr
    split at hr
    · simp at hr
    · split at hr
      · simp at hr
      · simp only [Except.ok.injEq] at hr
        subst hr
        exact keepsOn_close (keepsOn_dup2 hopen.1 env _ (ht (by simp))) hopen.2

theorem restore_spec {env : Env} {v u : World} {file : Token} {saved : Int} {target : Nat}
    (hr : restore env v file saved target = .ok u) :
    (file = none ∧ u = v) ∨
      (file ≠ none ∧ ∃ f, lookupFd v.fds saved = some f ∧ u.fds target = some f ∧
        ∀ fd, fd ≠ target → u.fds fd = v.fds fd) := by
  cases file with
  | none =>
    simp only [restore, Except.ok.injEq] at hr
    exact Or.inl ⟨rfl, hr.symm⟩
  | some path =>
    right
    refine ⟨by simp, ?_⟩
    unfold restore at hr
    simp only at hr
    split at hr
    · simp at hr
    next hd =>
      simp only [Except.ok.injEq] at hr
      subst hr
      unfold sys_dup2 at hd ⊢
      cases hl : lookupFd v.fds saved with
      | none => simp [hl] at hd
      | some f =>
        simp only [hl] at hd ⊢
        by_cases hn : env.nofile ≤ target
        · simp [hn] at hd
        · simp only [hn, if_false] at hd ⊢
          by_cases hst : saved = (target : Int)
          · simp only [hst, if_true]
            rw [hst, lookupFd_natCast] at hl
            exact ⟨f, rfl, hl, fun _ _ => trivial⟩
          · simp only [hst, if_false]
            refine ⟨f, rfl, by simp [World.setFds, putFd], fun fd hfd => ?_⟩
            simp [World.setFds, putFd, hfd]

theorem sys_close_other (v : World) (x : Int) (fd : Nat) (h : x < 0 ∨ x.toNat ≠ fd) :
    (sys_close v x).fds fd = v.fds fd := by
  unfold sys_close
  split
  · rfl
  next f hf =>
    rcases h with h | h
    · simp [lookupFd, h] at hf
    · simp [World.setFds, putFd, Ne.symm h]

theorem lookupFd_some {t : FdTable} {x : Int} {f : Nat} (h : lookupFd t x = some f) :
    ¬ x < 0 ∧ t x.toNat = some f := by
  unfold lookupFd at h
  split at h
  · simp at h
  next hx => exact ⟨hx, h⟩

theorem fresh_ne {P : Nat → Prop} {x : Int} (hx : Fresh P x) {fd : Nat} (hfd : P fd) :
    x < 0 ∨ x.toNat ≠ fd := by
  rcases hx with hx | hx
  · exact Or.inl hx
  · exact Or.inr (fun h => hx (h ▸ hfd))

theorem sys_dup_get (env : Env) (v : World) (x : Int)
    (h : ¬ (sys_dup env v x).1 < 0) :
    (sys_dup env v x).2.fds (sys_dup env v x).1.toNat = lookupFd v.fds x := by
  unfold sys_dup at h ⊢
  split
  next g k hg _ => simp [World.setFds, putFd, hg]
  next h1 =>
    split at h
    · exact (h1 _ _ ‹_› ‹_›).elim
    · exact absurd (show (-1 : Int) < 0 by decide) h

/-- The two saved copies of `standard_execute`: each is a descriptor that was unused
before, and after both `dup` calls each copy that was made refers to the file of the
descriptor it copies. -/
theorem saved_copies (env : Env) (w : World) (hin : w.fds STDIN_FILENO ≠ none)
    (hout : w.fds STDOUT_FILENO ≠ none) :
    KeepsOn (fun fd => w.fds fd ≠ none) w
        (sys_dup env (sys_dup env w (STDIN_FILENO : Int)).2 (STDOUT_FILENO : Int)).2 ∧
      Fresh (fun fd => w.fds fd ≠ none) (sys_dup env w (STDIN_FILENO : Int)).1 ∧
      Fresh (fun fd => w.fds fd ≠ none)
        (sys_dup env (sys_dup env w (STDIN_FILENO : Int)).2 (STDOUT_FILENO : Int)).1 ∧
      (¬ (sys_dup env w (STDIN_FILENO : Int)).1 < 0 →
        (sys_dup env (sys_dup env w (STDIN_FILENO : Int)).2 (STDOUT_FILENO : Int)).2.fds
          (sys_dup env w (STDIN_FILENO : Int)).1.toNat = w.fds STDIN_FILENO) ∧
      (¬ (sys_dup env (sys_dup env w (STDIN_FILENO : Int)).2 (STDOUT_FILENO : Int)).1 < 0 →
        (sys_dup env (sys_dup env w (STDIN_FILENO : Int)).2 (STDOUT_FILENO : Int)).2.fds
          (sys_dup env (sys_dup env w (STDIN_FILENO : Int)).2
            (STDOUT_FILENO : Int)).1.toNat = w.fds STDOUT_FILENO) := by
  have hP0 : ∀ fd, (fun fd => w.fds fd ≠ none) fd → w.fds fd ≠ none := fun _ h => h
  obtain ⟨kA, fa⟩ := keepsOn_dup hP0 (keepsOn_refl _ w) env (STDIN_FILENO : Int)
  obtain ⟨kB, fb⟩ := keepsOn_dup hP0 kA env (STDOUT_FILENO : Int)
  have kAB := (keepsOn_dup (P := fun fd => (sys_dup env w (STDIN_FILENO : Int)).2.fds fd ≠ none)
    (fun _ h => h) (keepsOn_refl _ _) env (STDOUT_FILENO : Int)).1
  refine ⟨kB, fa, fb, fun ha => ?_, fun hb => ?_⟩
  · have h1 := sys_dup_get env w (STDIN_FILENO : Int) ha
    rw [lookupFd_natCast] at h1
    have hopen : (sys_dup env w (STDIN_FILENO : Int)).2.fds
        (sys_dup env w (STDIN_FILENO : Int)).1.toNat ≠ none := by
      rw [h1]; exact hin
    rw [kAB.1 _ hopen, h1]
  · have h1 := sys_dup_get env _ (STDOUT_FILENO : Int) hb
    rw [lookupFd_natCast] at h1
    rw [h1]
    exact kA.1 _ hout

/-- C6 (as amended): let standard input and standard output both be open when
`standard_execute` is called on a line with at most two `|` tokens.  Whenever the call
returns, descriptors 0 and 1 refer to the files they referred to before the call; and
when the line holds no `<` and no `>`, they refer to those files in every descriptor
table the process has had during the call. -/
theorem descriptors_restored (env : Env) (w v : World) (toks : List String)
    (rest : List Token)
    (hin : w.fds STDIN_FILENO ≠ none) (hout : w.fds STDOUT_FILENO ≠ none)
    (hp : toks.count "|" ≤ 2)
    (hret : standard_execute env w (toks.map some ++ none :: rest) = .ok v) :
    v.fds STDIN_FILENO = w.fds STDIN_FILENO ∧ v.fds STDOUT_FILENO = w.fds STDOUT_FILENO ∧
      ((∀ t ∈ toks, t ≠ "<" ∧ t ≠ ">") →
        ∃ l, v.seen = w.seen ++ l ∧
          ∀ t ∈ l, t STDIN_FILENO = w.fds STDIN_FILENO ∧
            t STDOUT_FILENO = w.fds STDOUT_FILENO) := by
  obtain ⟨m, hm⟩ := countPipes_total rest toks 0
  have hbound : ∀ n e, pipeScan (toks.map strike ++ none :: rest) 0 0 (-1) = some (n, e) →
      n ≤ 2 := by
    intro n e h
    have := pipeScan_le rest toks 0 0 (-1) n e h
    omega
  unfold standard_execute at hret
  simp only [hm, redirScan, redirLoop_eq, List.nil_append] at hret
  generalize hinp : capture "<" toks none = inp at hret
  generalize hou : capture ">" toks none = out at hret
  -- the two saved copies
  have hP0 : ∀ fd, (fun fd => w.fds fd ≠ none) fd → w.fds fd ≠ none := fun _ h => h
  obtain ⟨kB, fa, fb, sA, sB⟩ := saved_copies env w hin hout
  generalize sys_dup env w (STDIN_FILENO : Int) = dA at hret kB fa fb sA sB
  obtain ⟨a, wA⟩ := dA
  generalize sys_dup env wA (STDOUT_FILENO : Int) = dB at hret kB fb sA sB
  obtain ⟨b, wB⟩ := dB
  simp only at hret kB fa fb sA sB
  have hQ : ∀ fd, (fun fd => wB.fds fd ≠ none ∧ (inp ≠ none → fd ≠ STDIN_FILENO) ∧
      (out ≠ none → fd ≠ STDOUT_FILENO)) fd → wB.fds fd ≠ none := fun _ h => h.1
  cases h1 : redirect env wB inp env.openRead STDIN_FILENO with
  | error x => simp [h1] at hret
  | ok w1 =>
    rw [h1] at hret
    simp only at hret
    cases h2 : redirect env w1 out env.openWrite STDOUT_FILENO with
    | error x => simp [h2] at hret
    | ok w2 =>
      rw [h2] at hret
      simp only at hret
      cases h3 : dispatch env w2 (toks.map strike ++ none :: rest) m with
      | error x => simp [h3] at hret
      | ok w3 =>
        rw [h3] at hret
        simp only at hret
        cases h4 : restore env w3 inp a STDIN_FILENO with
        | error x => simp [h4] at hret
        | ok w4 =>
          rw [h4] at hret
          simp only at hret
          cases h5 : restore env w4 out b STDOUT_FILENO with
          | error x => simp [h5] at hret
          | ok w5 =>
            rw [h5] at hret
            simp only [Except.ok.injEq] at hret
            subst hret
            have k1 := redirect_keeps hQ (keepsOn_refl _ wB) (fun hne hq => hq.2.1 hne rfl) h1
            have k2 := redirect_keeps hQ k1 (fun hne hq => hq.2.2 hne rfl) h2
            have k3 := dispatch_keeps hQ k2 hbound h3
            have eB0 : wB.fds STDIN_FILENO = w.fds STDIN_FILENO := kB.1 _ hin
            have eB1 : wB.fds STDOUT_FILENO = w.fds STDOUT_FILENO := kB.1 _ hout
            have r4 := restore_spec h4
            have r5 := restore_spec h5
            -- a saved copy is kept from the `dup` call to the restoration
            have saved : ∀ (x : Int) (fd f : Nat), Fresh (fun fd => w.fds fd ≠ none) x →
                (¬ x < 0 → wB.fds x.toNat = w.fds fd) → w.fds fd ≠ none →
                lookupFd w3.fds x = some f → w.fds fd = some f := by
              intro x fd f fx sx hfd hf
              obtain ⟨hx, hfx⟩ := lookupFd_some hf
              have n0 : x.toNat ≠ STDIN_FILENO := by
                rcases fresh_ne fx hin with h | h
                · exact absurd h hx
                · exact h
              have n1 : x.toNat ≠ STDOUT_FILENO := by
                rcases fresh_ne fx hout with h | h
                · exact absurd h hx
                · exact h
              have := k3.1 x.toNat ⟨by rw [sx hx]; exact hfd, fun _ => n0, fun _ => n1⟩
              rw [← sx hx, ← this, hfx]
            have c0 : (sys_close (sys_close w5 a) b).fds STDIN_FILENO = w5.fds STDIN_FILENO := by
              rw [sys_close_other _ _ _ (fresh_ne fb hin),
                sys_close_other _ _ _ (fresh_ne fa hin)]
            have c1 : (sys_close (sys_close w5 a) b).fds STDOUT_FILENO =
                w5.fds STDOUT_FILENO := by
              rw [sys_close_other _ _ _ (fresh_ne fb hout),
                sys_close_other _ _ _ (fresh_ne fa hout)]
            have e30 : inp = none → w3.fds STDIN_FILENO = w.fds STDIN_FILENO := by
              intro hi
              rw [k3.1 STDIN_FILENO ⟨by rw [eB0]; exact hin, fun hne => absurd hi hne,
                fun _ => by decide⟩, eB0]
            have e31 : out = none → w3.fds STDOUT_FILENO = w.fds STDOUT_FILENO := by
              intro ho
              rw [k3.1 STDOUT_FILENO ⟨by rw [eB1]; exact hout, fun _ => by decide,
                fun hne => absurd ho hne⟩, eB1]
            refine ⟨?_, ?_, ?_⟩
            · rw [c0]
              have e50 : w5.fds STDIN_FILENO = w4.fds STDIN_FILENO := by
                rcases r5 with ⟨_, h⟩ | ⟨_, f, _, _, hoth⟩
                · rw [h]
                · exact hoth _ (by decide)
              rw [e50]
              rcases r4 with ⟨hi, h⟩ | ⟨_, f, hl, ht, _⟩
              · rw [h]; exact e30 hi
              · rw [ht, saved a STDIN_FILENO f fa sA hin hl]
            · rw [c1]
              rcases r5 with ⟨ho, h⟩ | ⟨_, f, hl, ht, _⟩
              · rw [h]
                rcases r4 with ⟨_, h⟩ | ⟨_, g, _, _, hoth⟩
                · rw [h]; exact e31 ho
                · rw [hoth _ (by decide)]; exact e31 ho
              · rw [ht]
                have hl3 : lookupFd w3.fds b = some f := by
                  rcases r4 with ⟨_, h⟩ | ⟨_, g, _, _, hoth⟩
                  · rw [← h]; exact hl
                  · obtain ⟨hb, hfb⟩ := lookupFd_some hl
                    have n0 : b.toNat ≠ STDIN_FILENO := by
                      rcases fresh_ne fb hin with h | h
                      · exact absurd h hb
                      · exact h
                    rw [hoth _ n0] at hfb
                    simp [lookupFd, hb, hfb]
                rw [saved b STDOUT_FILENO f fb sB hout hl3]
            · intro hplain
              have hi : inp = none := by
                rw [← hinp]
                exact capture_absent "<" toks none
                  (fun i h => (hplain _ (List.getElem?_mem h)).1 rfl)
              have ho : out = none := by
                rw [← hou]
                exact capture_absent ">" toks none
                  (fun i h => (hplain _ (List.getElem?_mem h)).2 rfl)
              subst hi ho
              simp only [redirect, Except.ok.injEq] at h1 h2
              subst h1 h2
              have k3p := dispatch_keeps hP0 kB hbound h3
              rcases r4 with ⟨_, e4⟩ | ⟨hne, _⟩
              · rcases r5 with ⟨_, e5⟩ | ⟨hne, _⟩
                · rw [e5, e4]
                  obtain ⟨_, l, hl, hall⟩ := keepsOn_close (keepsOn_close k3p fa) fb
                  exact ⟨l, hl, fun t ht => ⟨hall t ht _ hin, hall t ht _ hout⟩⟩
                · exact absurd rfl hne
              · exact absurd rfl hne

/-- C6 (witness): `cat < in > out` in a fresh session returns with both descriptors on
the terminal again. -/
theorem descriptors_restored_witness :
    freshWorld.fds STDIN_FILENO ≠ none ∧ freshWorld.fds STDOUT_FILENO ≠ none ∧
      ["cat", "<", "in", ">", "out"].count "|" ≤ 2 ∧
      ∃ v, standard_execute calmEnv freshWorld
          (["cat", "<", "in", ">", "out"].map some ++ none :: []) = .ok v ∧
        v.fds STDIN_FILENO = freshWorld.fds STDIN_FILENO ∧
        v.fds STDOUT_FILENO = freshWorld.fds STDOUT_FILENO :=
  ⟨by decide, by decide, by decide,
    match h : standard_execute calmEnv freshWorld
        (["cat", "<", "in", ">", "out"].map some ++ none :: []) with
    | .ok v =>
      have r := descriptors_restored calmEnv freshWorld v ["cat", "<", "in", ">", "out"] []
        (by decide) (by decide) (by decide) h
      ⟨v, rfl, r.1, r.2.1⟩
    | .error x =>
      absurd (show (returned (standard_execute calmEnv freshWorld
        (["cat", "<", "in", ">", "out"].map some ++ none :: []))).isSome = true by decide)
        (by rw [h]; simp [returned])⟩

/-- With three `|` tokens the closing loop of `piped_execute` reaches `pipe_fds[2]`, which
no `pipe` call has filled: where that memory holds zeros, standard input is closed when
`standard_execute` returns. -/
theorem stray_close_beyond_two_pipes :
    (returned (standard_execute calmEnv freshWorld fourStages)).map
        (fun w => (w.fds STDIN_FILENO, w.fds STDOUT_FILENO)) = some (none, some 1) := by
  decide

/-! ## The single-stage path on a plain line -/

theorem countPipes_plain (rest : List Token) (toks : List String)
    (h : ∀ t ∈ toks, t ≠ "|") :
    ∀ n, countPipes (toks.map some ++ none :: rest) n = some n := by
  induction toks with
  | nil => intro n; rfl
  | cons t ts ih =>
    intro n
    rw [List.map_cons, List.cons_append, countPipes,
      if_neg (h t (List.mem_cons_self t ts))]
    exact ih (fun u hu => h u (List.mem_cons_of_mem t hu)) n

theorem strike_plain (toks : List String) (h : ∀ t ∈ toks, t ≠ "<" ∧ t ≠ ">") :
    toks.map strike = toks.map some := by
  apply List.map_congr_left
  intro t ht
  simp [strike, (h t ht).1, (h t ht).2]

theorem dispatch_single (env : Env) (v : World) (toks : List String) (rest : List Token)
    (hfork : 0 < env.fork v.forked) (hlog : env.logOpen = true) :
    ∃ u, dispatch env v (toks.map some ++ none :: rest) 0 = .ok u ∧
      u.log = v.log ++ [recordText (env.fork v.forked) (toks.take (MAX_COMMANDS - 1))] ∧
      u.children = v.children + 1 ∧ u.waits = v.waits + 1 := by
  have hne : ¬ env.fork v.forked = 0 := by omega
  have hnl : ¬ env.fork v.forked < 0 := by omega
  have htext := logText_eq (env.fork v.forked) toks rest ((MAX_COMMANDS - 1 : Nat) : Int)
  have hb : beforeBoundary ((MAX_COMMANDS - 1 : Nat) : Int) toks =
      toks.take (MAX_COMMANDS - 1) := by
    simp [beforeBoundary]
  rw [hb] at htext
  unfold dispatch
  simp only [sys_fork, hne, hnl, hfork, if_true, if_false, log_commands, hlog, htext]
  exact ⟨_, rfl, rfl, rfl, rfl⟩

/-- On a line without `|`, `<` and `>`, with the log file opening and `fork` returning a
positive handle, `standard_execute` returns after one `fork` and one `wait`, and has
appended one record: the handle and the first `MAX_COMMANDS - 1` tokens of the line. -/
theorem single_stage_record (env : Env) (w : World) (toks : List String) (rest : List Token)
    (hplain : ∀ t ∈ toks, t ≠ "|" ∧ t ≠ "<" ∧ t ≠ ">")
    (hfork : 0 < env.fork w.forked) (hlog : env.logOpen = true) :
    ∃ v, standard_execute env w (toks.map some ++ none :: rest) = .ok v ∧
      v.log = w.log ++ [recordText (env.fork w.forked) (toks.take (MAX_COMMANDS - 1))] ∧
      v.children = w.children + 1 ∧ v.waits = w.waits + 1 := by
  have hc := countPipes_plain rest toks (fun t ht => (hplain t ht).1) 0
  have hs := strike_plain toks (fun t ht => (hplain t ht).2)
  have hi : capture "<" toks none = none :=
    capture_absent "<" toks none (fun i h => (hplain _ (List.getElem?_mem h)).2.1 rfl)
  have ho : capture ">" toks none = none :=
    capture_absent ">" toks none (fun i h => (hplain _ (List.getElem?_mem h)).2.2 rfl)
  have hled : SameLedger w (sys_dup env (sys_dup env w STDIN_FILENO).2 STDOUT_FILENO).2 :=
    (sameLedger_dup _ _ _).trans (sameLedger_dup _ _ _)
  unfold standard_execute
  simp only [hc, redirScan, redirLoop_eq, hs, hi, ho, redirect, restore, List.nil_append]
  generalize sys_dup env w (STDIN_FILENO : Int) = dA at hled ⊢
  generalize sys_dup env dA.2 (STDOUT_FILENO : Int) = dB at hled ⊢
  obtain ⟨a1, -, a3, a4, a5, -, -⟩ := hled
  obtain ⟨u, hu, u1, u2, u3⟩ := dispatch_single env dB.2 toks rest (by rw [a3]; exact hfork) hlog
  rw [hu]
  obtain ⟨b1, -, -, b4, b5, -, -⟩ :
      SameLedger u (sys_close (sys_close u dA.1) dB.1) :=
    (sameLedger_close _ _).trans (sameLedger_close _ _)
  exact ⟨_, rfl, by rw [b1, u1, a1, a3], by rw [b4, u2, a4], by rw [b5, u3, a5]⟩

/-- A line of three plain tokens goes through the single-stage path. -/
theorem single_stage_record_witness :
    (∀ t ∈ ["ls", "-l", "src"], t ≠ "|" ∧ t ≠ "<" ∧ t ≠ ">") ∧
      (0 : Int) < calmEnv.fork freshWorld.forked ∧ calmEnv.logOpen = true ∧
      ∃ v, standard_execute calmEnv freshWorld (["ls", "-l", "src"].map some ++ none :: []) =
          .ok v ∧
        v.log = freshWorld.log ++
          [recordText (calmEnv.fork freshWorld.forked)
            (["ls", "-l", "src"].take (MAX_COMMANDS - 1))] ∧
        v.children = freshWorld.children + 1 ∧ v.waits = freshWorld.waits + 1 :=
  ⟨by decide, by decide, rfl,
    single_stage_record calmEnv freshWorld ["ls", "-l", "src"] [] (by decide) (by decide) rfl⟩

/-! ## The examples of the specification -/

/-- The line `cat file.txt | wc -l` creates two children, is waited for twice and leaves
the two records `cat file.txt ` and `wc -l `, in spawn order. -/
theorem example_pipeline :
    (returned (standard_execute calmEnv freshWorld catWc)).map
        (fun w => (w.children, w.waits, w.log)) =
      some (2, 2, ["PID: 101\nCommand: cat file.txt \n\n", "PID: 102\nCommand: wc -l \n\n"]) := by
  decide

/-- The line `echo hi > out.txt` leaves one record with `Command: echo hi ` and the
session's descriptors as they were. -/
theorem example_redirection :
    (returned (standard_execute calmEnv freshWorld echoOut)).map
        (fun w => (w.log, w.fds STDIN_FILENO, w.fds STDOUT_FILENO)) =
      some (["PID: 101\nCommand: echo hi \n\n"], some 1, some 1) := by
  decide

/-! ## What the single-stage child is handed after the redirection scan -/

/-- The child of `cat < in > out` calls `execvp` with `cat` alone, its standard input on
the input file (file 50) and its standard output on the output file (file 60). -/
theorem example_redirected_child :
    (finalWorld (standard_execute firstChild freshWorld catInOut)).map
        (fun w => (w.execs, w.fds STDIN_FILENO, w.fds STDOUT_FILENO)) =
      some ([(some "cat", ["cat"])], some 50, some 60) := by
  decide

/-- On `a | b > out` the scan leaves `a | b` before the first absent marker, and the two
children of the pipeline are handed `a` and `b`: each stage gets its own part. -/
theorem pipeline_stage_arguments :
    (finalWorld (standard_execute firstChild freshWorld
        [some "a", some "|", some "b", some ">", some "out", none])).map
        (fun w => w.execs) = some [(some "a", ["a"])] ∧
      (finalWorld (standard_execute secondChild freshWorld
        [some "a", some "|", some "b", some ">", some "out", none])).map
        (fun w => w.execs) = some [(some "b", ["b"])] := by
  decide

end CTerminal
